import Mathlib

set_option linter.unusedVariables false

/-!
Verification of the classroom Raspberry Pi backup system against its design
specification.  The definitions below are a shallow embedding of the two
Python programs `client.py` (configuration synchronization and backup
execution) and `find_missing.py` (fleet audit).  Theorems settle the frozen
claims C1–C10.
-/

namespace BackupClient

/-- An entry of the configuration's `updates` list: `{'epoch': int, 'script': str}`. -/
structure UpdateRecord where
  epoch : Int
  script : String
deriving Repr, DecidableEq

/-- The part of the configuration document that `apply_config`'s update loop
reads: its `updates` list. -/
structure Config where
  updates : List UpdateRecord
deriving Repr

/-- Python's `max(...)` over the epochs of an updates list.  Python raises
`ValueError` on an empty list; this total version is only meaningful for
non-empty lists, which the callers' hypotheses establish. -/
def maxEpoch (updates : List UpdateRecord) : Int :=
  (updates.map (·.epoch)).foldl max ((updates.map (·.epoch)).headI)

/-- Python's `range(a, b)` over integers, as an ascending list. -/
def pythonRange (a b : Int) : List Int :=
  (List.range (b - a).toNat).map (fun (i : Nat) => a + (i : Int))

/-- `[update for update in config['updates'] if update['epoch'] == i][0]`,
with the `IndexError` raised on an empty filter result mapped to `none`
(that exception is caught and ignored by `apply_config`). -/
def lookupUpdate (updates : List UpdateRecord) (i : Int) : Option UpdateRecord :=
  (updates.filter (fun u => u.epoch == i)).head?

/-- One observable step of `apply_config`'s update loop: a loop iteration
for an epoch (an attempt), or the execution of a matched update script. -/
inductive SyncEvent where
  | attempt (epoch : Int)
  | run (epoch : Int) (script : String)
deriving Repr, DecidableEq

/-- The epoch an event is about. -/
def SyncEvent.epoch : SyncEvent → Int
  | .attempt e => e
  | .run e _ => e

/-- The loop body of `apply_config` for one epoch `i`: the epoch is
attempted; when a record with exactly that epoch exists, its script is run
(`apply_update`), otherwise the `IndexError` is swallowed and nothing runs. -/
def epochStep (updates : List UpdateRecord) (i : Int) : List SyncEvent :=
  match lookupUpdate updates i with
  | some u => [SyncEvent.attempt i, SyncEvent.run i u.script]
  | none => [SyncEvent.attempt i]

/-- The event trace of `apply_config`'s update loop:
`for i in range(current_update_epoch + 1, latest_update_epoch + 1): ...`. -/
def syncTrace (config prev : Config) : List SyncEvent :=
  (pythonRange (maxEpoch prev.updates + 1) (maxEpoch config.updates + 1)).flatMap
    (epochStep config.updates)

/-- Ordering constraints between two events appearing in trace order:
attempts occur at strictly increasing epochs, and a script run strictly
precedes every attempt of a later epoch (a run may share its epoch only
with its own attempt, which comes first). -/
def precedesOK : SyncEvent → SyncEvent → Prop
  | SyncEvent.attempt e, SyncEvent.attempt e' => e < e'
  | SyncEvent.attempt e, SyncEvent.run e' _ => e ≤ e'
  | SyncEvent.run e _, SyncEvent.attempt e' => e < e'
  | SyncEvent.run e _, SyncEvent.run e' _ => e < e'

theorem mem_pythonRange {a b e : Int} : e ∈ pythonRange a b ↔ a ≤ e ∧ e < b := by
  unfold pythonRange
  rw [List.mem_map]
  constructor
  · rintro ⟨i, hi, rfl⟩
    rw [List.mem_range] at hi
    omega
  · rintro ⟨h1, h2⟩
    refine ⟨(e - a).toNat, ?_, by omega⟩
    rw [List.mem_range]
    omega

theorem epoch_of_mem_epochStep {updates : List UpdateRecord} {i : Int} {x : SyncEvent}
    (hx : x ∈ epochStep updates i) : x.epoch = i := by
  unfold epochStep at hx
  cases h : lookupUpdate updates i with
  | some u =>
      rw [h] at hx
      simp only [List.mem_cons, List.mem_singleton, List.not_mem_nil, or_false] at hx
      rcases hx with rfl | rfl
      · rfl
      · rfl
  | none =>
      rw [h] at hx
      simp only [List.mem_singleton] at hx
      subst hx
      rfl

theorem attempt_mem_epochStep {updates : List UpdateRecord} {i e : Int} :
    SyncEvent.attempt e ∈ epochStep updates i ↔ e = i := by
  unfold epochStep
  cases h : lookupUpdate updates i <;> simp

theorem run_mem_epochStep {updates : List UpdateRecord} {i e : Int} {s : String} :
    SyncEvent.run e s ∈ epochStep updates i ↔
      e = i ∧ ∃ u, lookupUpdate updates i = some u ∧ u.script = s := by
  unfold epochStep
  cases h : lookupUpdate updates i with
  | some u => simp [eq_comm]
  | none => simp

theorem attempt_mem_syncTrace {config prev : Config} {e : Int} :
    SyncEvent.attempt e ∈ syncTrace config prev ↔
      maxEpoch prev.updates < e ∧ e ≤ maxEpoch config.updates := by
  unfold syncTrace
  rw [List.mem_flatMap]
  constructor
  · rintro ⟨i, hi, hmem⟩
    rw [attempt_mem_epochStep] at hmem
    subst hmem
    have := mem_pythonRange.mp hi
    omega
  · rintro ⟨h1, h2⟩
    exact ⟨e, mem_pythonRange.mpr (by omega), attempt_mem_epochStep.mpr rfl⟩

theorem run_mem_syncTrace {config prev : Config} {e : Int} {s : String} :
    SyncEvent.run e s ∈ syncTrace config prev ↔
      (maxEpoch prev.updates < e ∧ e ≤ maxEpoch config.updates) ∧
        ∃ u, lookupUpdate config.updates e = some u ∧ u.script = s := by
  unfold syncTrace
  rw [List.mem_flatMap]
  constructor
  · rintro ⟨i, hi, hmem⟩
    rw [run_mem_epochStep] at hmem
    obtain ⟨rfl, hu⟩ := hmem
    have := mem_pythonRange.mp hi
    exact ⟨by omega, hu⟩
  · rintro ⟨⟨h1, h2⟩, hu⟩
    exact ⟨e, mem_pythonRange.mpr (by omega), run_mem_epochStep.mpr ⟨rfl, hu⟩⟩

theorem precedesOK_of_epoch_lt {x y : SyncEvent} (h : x.epoch < y.epoch) :
    precedesOK x y := by
  cases x <;> cases y <;> simp_all [SyncEvent.epoch, precedesOK] <;> omega

theorem pairwise_epochStep (updates : List UpdateRecord) (i : Int) :
    (epochStep updates i).Pairwise precedesOK := by
  unfold epochStep
  cases h : lookupUpdate updates i with
  | some u => exact List.pairwise_pair.mpr (le_refl i)
  | none => exact List.pairwise_singleton _ _

theorem pairwise_pythonRange (a b : Int) : (pythonRange a b).Pairwise (· < ·) := by
  unfold pythonRange
  exact (List.pairwise_lt_range _).map _ (fun i j hij => by omega)

theorem syncTrace_pairwise (config prev : Config) :
    (syncTrace config prev).Pairwise precedesOK := by
  unfold syncTrace
  rw [List.pairwise_flatMap]
  refine ⟨fun i _ => pairwise_epochStep _ i, ?_⟩
  refine (pairwise_pythonRange _ _).imp ?_
  intro i j hij
  intro x hx y hy
  refine precedesOK_of_epoch_lt ?_
  rw [epoch_of_mem_epochStep hx, epoch_of_mem_epochStep hy]
  exact hij

/-- **C1.** For every old and new configuration, each with a non-empty
updates list, the epochs attempted by `apply_config`'s update loop are
exactly the integers in `(max(prev.updates.epoch), max(config.updates.epoch)]`;
the trace is ordered so that attempts occur at strictly ascending epochs and
every matched script run happens before any later epoch's attempt; and a
script is run for an epoch exactly when a record with that exact epoch
exists in the new configuration. -/
theorem apply_config_epoch_order (config prev : Config)
    (h1 : prev.updates ≠ []) (h2 : config.updates ≠ []) :
    (∀ e : Int, SyncEvent.attempt e ∈ syncTrace config prev ↔
      maxEpoch prev.updates < e ∧ e ≤ maxEpoch config.updates)
    ∧ (∀ (e : Int) (s : String), SyncEvent.run e s ∈ syncTrace config prev ↔
      (maxEpoch prev.updates < e ∧ e ≤ maxEpoch config.updates)
        ∧ ∃ u, lookupUpdate config.updates e = some u ∧ u.script = s)
    ∧ (syncTrace config prev).Pairwise precedesOK := by
  refine ⟨fun e => attempt_mem_syncTrace, fun e s => run_mem_syncTrace, ?_⟩
  exact syncTrace_pairwise config prev

/-- Concrete old configuration for witnesses: a single update at epoch 0. -/
def prevBase : Config := ⟨[⟨0, "updates/00-no_op.sh"⟩]⟩

/-- Concrete new configuration for the C1 witness: updates at epochs 0..3. -/
def cfgOrdered : Config :=
  ⟨[⟨0, "updates/00-no_op.sh"⟩, ⟨1, "a.sh"⟩, ⟨2, "b.sh"⟩, ⟨3, "c.sh"⟩]⟩

theorem apply_config_epoch_order_witness :
    prevBase.updates ≠ [] ∧ cfgOrdered.updates ≠ [] ∧
    ((∀ e : Int, SyncEvent.attempt e ∈ syncTrace cfgOrdered prevBase ↔
      maxEpoch prevBase.updates < e ∧ e ≤ maxEpoch cfgOrdered.updates)
    ∧ (∀ (e : Int) (s : String), SyncEvent.run e s ∈ syncTrace cfgOrdered prevBase ↔
      (maxEpoch prevBase.updates < e ∧ e ≤ maxEpoch cfgOrdered.updates)
        ∧ ∃ u, lookupUpdate cfgOrdered.updates e = some u ∧ u.script = s)
    ∧ (syncTrace cfgOrdered prevBase).Pairwise precedesOK) :=
  ⟨List.cons_ne_nil _ _, List.cons_ne_nil _ _,
    apply_config_epoch_order cfgOrdered prevBase (List.cons_ne_nil _ _) (List.cons_ne_nil _ _)⟩

/-- **C7.** A pending epoch with no matching update record is skipped
silently by `apply_config`: the epoch is still attempted (its `IndexError`
is caught), no script runs for it, and every other pending epoch is still
attempted. -/
theorem apply_config_gap_silent (config prev : Config) (i : Int)
    (hlo : maxEpoch prev.updates < i) (hhi : i ≤ maxEpoch config.updates)
    (hnone : lookupUpdate config.updates i = none) :
    SyncEvent.attempt i ∈ syncTrace config prev
    ∧ (∀ s, SyncEvent.run i s ∉ syncTrace config prev)
    ∧ ∀ e, maxEpoch prev.updates < e → e ≤ maxEpoch config.updates →
        SyncEvent.attempt e ∈ syncTrace config prev := by
  refine ⟨attempt_mem_syncTrace.mpr ⟨hlo, hhi⟩, ?_, fun e he1 he2 =>
    attempt_mem_syncTrace.mpr ⟨he1, he2⟩⟩
  intro s hmem
  obtain ⟨-, u, hu, -⟩ := run_mem_syncTrace.mp hmem
  rw [hnone] at hu
  exact Option.noConfusion hu

/-- Concrete new configuration for the C7 witness: updates at epochs 0 and 2
only; epoch 1 is reserved without content. -/
def cfgGap : Config := ⟨[⟨0, "updates/00-no_op.sh"⟩, ⟨2, "b.sh"⟩]⟩

/-- A line of the archiving tool's diagnostic stream as the log-processing
loops see it: either the line fails to parse as JSON (and is silently
ignored) or it is a log-message object carrying a `levelname`, an optional
`msgid`, and a `message`. -/
inductive LogLine where
  | junk
  | msg (levelname : String) (msgid : Option String) (message : String)
deriving Repr, DecidableEq

/-- The `errors` list accumulated by `do_backup`'s log loop: parsed lines
whose `levelname` is `ERROR`. -/
def borgErrors (lines : List LogLine) : List LogLine :=
  lines.filter fun l => match l with
    | .msg lv _ _ => lv == "ERROR"
    | .junk => false

/-- The `warnings` list accumulated by `do_backup`'s log loop: parsed lines
whose `levelname` is `WARNING`. -/
def borgWarnings (lines : List LogLine) : List LogLine :=
  lines.filter fun l => match l with
    | .msg lv _ _ => lv == "WARNING"
    | .junk => false

/-- The `repo_doesnt_exist` flag: set when some `ERROR` line's `msgid`
(defaulting to the empty string when absent) equals `Repository.DoesNotExist`. -/
def repoMissingFlag (lines : List LogLine) : Bool :=
  lines.any fun l => match l with
    | .msg lv mid _ => lv == "ERROR" && mid.getD "" == "Repository.DoesNotExist"
    | .junk => false

/-- The observable result of one subprocess run of the archiving tool:
its exit code and its parsed stderr lines. -/
structure BorgResult where
  returncode : Int
  stderr : List LogLine
deriving Repr, DecidableEq

/-- The branch taken by `do_backup` after one `borg create` run
(client.py lines 261–283). Exit code 0 reports success; 1 reports the
accumulated warnings; 2 either enters the bootstrap-and-retry path (when
the repository-missing flag is set and this is not already the retry) or
reports the accumulated errors and warnings and dies; any other exit code
takes no branch at all. -/
inductive CreateDecision where
  | reportSuccess
  | reportWarnings (warnings : List LogLine)
  | bootstrapRetry
  | reportFailure (errors warnings : List LogLine)
  | noBranch
deriving Repr, DecidableEq

def createDecision (r : BorgResult) (isRetry : Bool) : CreateDecision :=
  if r.returncode = 0 then .reportSuccess
  else if r.returncode = 1 then .reportWarnings (borgWarnings r.stderr)
  else if r.returncode = 2 then
    if repoMissingFlag r.stderr && !isRetry then .bootstrapRetry
    else .reportFailure (borgErrors r.stderr) (borgWarnings r.stderr)
  else .noBranch

/-- `create_repo` calls `die()` exactly when its `borg init` run exits with
code 2; on any other exit code it returns and its caller proceeds. -/
def createRepoFatal (r : BorgResult) : Bool := r.returncode == 2

/-- Externally visible actions of one `do_backup` invocation. -/
inductive BackupEvent where
  | createAttempt (isRetry : Bool)
  | bootstrap
deriving Repr, DecidableEq

/-- Whether a `do_backup` invocation returns normally or reaches `die()`. -/
inductive RunOutcome where
  | completed
  | fatal
deriving Repr, DecidableEq

/-- The event trace and final outcome of `do_backup`, parameterized by the
results of the (at most two) `borg create` runs — indexed by the `is_retry`
flag — and of the single possible `borg init` run. -/
def doBackup (create : Bool → BorgResult) (bootstrapResult : BorgResult)
    (isRetry : Bool) : List BackupEvent × RunOutcome :=
  match h : createDecision (create isRetry) isRetry with
  | .reportSuccess => ([.createAttempt isRetry], .completed)
  | .reportWarnings _ => ([.createAttempt isRetry], .completed)
  | .bootstrapRetry =>
      if createRepoFatal bootstrapResult then
        ([.createAttempt isRetry, .bootstrap], .fatal)
      else
        let sub := doBackup create bootstrapResult true
        (.createAttempt isRetry :: .bootstrap :: sub.1, sub.2)
  | .reportFailure _ _ => ([.createAttempt isRetry], .fatal)
  | .noBranch => ([.createAttempt isRetry], .completed)
termination_by (if isRetry then 0 else 1)
decreasing_by
  unfold createDecision at h
  split_ifs at h with h0 h1 h2 hmiss
  cases isRetry
  · simp
  · simp at hmiss

theorem createDecision_bootstrapRetry {r : BorgResult}
    (h2 : r.returncode = 2) (hd : repoMissingFlag r.stderr = true) :
    createDecision r false = .bootstrapRetry := by
  simp [createDecision, h2, hd]

theorem createDecision_retry_of_code2 {r : BorgResult} (h2 : r.returncode = 2) :
    createDecision r true =
      .reportFailure (borgErrors r.stderr) (borgWarnings r.stderr) := by
  simp [createDecision, h2]

theorem doBackup_of_reportSuccess {create : Bool → BorgResult} {boot : BorgResult}
    {i : Bool} (h : createDecision (create i) i = .reportSuccess) :
    doBackup create boot i = ([.createAttempt i], .completed) := by
  rw [doBackup.eq_def]
  split <;> simp_all

theorem doBackup_of_reportWarnings {create : Bool → BorgResult} {boot : BorgResult}
    {i : Bool} {w : List LogLine}
    (h : createDecision (create i) i = .reportWarnings w) :
    doBackup create boot i = ([.createAttempt i], .completed) := by
  rw [doBackup.eq_def]
  split <;> simp_all

theorem doBackup_of_reportFailure {create : Bool → BorgResult} {boot : BorgResult}
    {i : Bool} {e w : List LogLine}
    (h : createDecision (create i) i = .reportFailure e w) :
    doBackup create boot i = ([.createAttempt i], .fatal) := by
  rw [doBackup.eq_def]
  split <;> simp_all

theorem doBackup_of_noBranch {create : Bool → BorgResult} {boot : BorgResult}
    {i : Bool} (h : createDecision (create i) i = .noBranch) :
    doBackup create boot i = ([.createAttempt i], .completed) := by
  rw [doBackup.eq_def]
  split <;> simp_all

theorem doBackup_of_bootstrapFatal {create : Bool → BorgResult} {boot : BorgResult}
    {i : Bool} (h : createDecision (create i) i = .bootstrapRetry)
    (hf : createRepoFatal boot = true) :
    doBackup create boot i = ([.createAttempt i, .bootstrap], .fatal) := by
  rw [doBackup.eq_def]
  split <;> simp_all

theorem doBackup_of_bootstrapOk {create : Bool → BorgResult} {boot : BorgResult}
    {i : Bool} (h : createDecision (create i) i = .bootstrapRetry)
    (hf : createRepoFatal boot = false) :
    doBackup create boot i =
      (.createAttempt i :: .bootstrap :: (doBackup create boot true).1,
        (doBackup create boot true).2) := by
  rw [doBackup.eq_def]
  split <;> simp_all

theorem createDecision_retry_ne_bootstrapRetry (r : BorgResult) :
    createDecision r true ≠ .bootstrapRetry := by
  unfold createDecision
  split_ifs <;> simp_all

theorem doBackup_retry_trace (create : Bool → BorgResult) (boot : BorgResult) :
    (doBackup create boot true).1 = [.createAttempt true] := by
  rw [doBackup.eq_def]
  split <;> simp_all
  exact absurd (by assumption) (createDecision_retry_ne_bootstrapRetry _)

/-- An `ERROR` log line flagging a missing repository. -/
def dneLine : LogLine :=
  .msg "ERROR" (some "Repository.DoesNotExist") "repository does not exist"

/-- A create run that always fails with exit code 2 and a missing-repository
error, on the first attempt and on the retry alike. -/
def createAlwaysMissing : Bool → BorgResult := fun _ => ⟨2, [dneLine]⟩

/-- **C2 (counterexample).** The claim asserts that a first create failure
with `Repository.DoesNotExist` is always followed by exactly one bootstrap
and exactly one retry.  When the bootstrap itself exits with code 2,
`create_repo` calls `die()` and no retry happens: here the first create
fails with the missing-repository error, one bootstrap occurs, yet the
trace contains zero retry attempts. -/
theorem do_backup_bootstrap_once_counterexample :
    (createAlwaysMissing false).returncode = 2
    ∧ repoMissingFlag (createAlwaysMissing false).stderr = true
    ∧ (doBackup createAlwaysMissing ⟨2, []⟩ false).1.count BackupEvent.bootstrap = 1
    ∧ (doBackup createAlwaysMissing ⟨2, []⟩ false).1.count (BackupEvent.createAttempt true) = 0
    ∧ (doBackup createAlwaysMissing ⟨2, []⟩ false).2 = RunOutcome.fatal := by
  have hdec : createDecision (createAlwaysMissing false) false = .bootstrapRetry :=
    createDecision_bootstrapRetry rfl (by decide)
  have hrun := @doBackup_of_bootstrapFatal createAlwaysMissing ⟨2, []⟩ false hdec rfl
  rw [hrun]
  exact ⟨rfl, by decide, by decide, by decide, rfl⟩

/-- **C2 (amended).** If the first create attempt exits with code 2 and the
missing-repository flag set, then exactly one bootstrap is performed and at
most one retry; if the bootstrap does not fail fatally (exit code 2 aborts
the process inside `create_repo`), exactly one retry follows; and if that
retry again exits with code 2 — in particular when it again reports
`Repository.DoesNotExist` — no further bootstrap or retry occurs and the
outcome is terminal failure. -/
theorem do_backup_bootstrap_once (create : Bool → BorgResult) (boot : BorgResult)
    (h2 : (create false).returncode = 2)
    (hdne : repoMissingFlag (create false).stderr = true) :
    (doBackup create boot false).1.count BackupEvent.bootstrap = 1
    ∧ (doBackup create boot false).1.count (BackupEvent.createAttempt true) ≤ 1
    ∧ (boot.returncode ≠ 2 →
        (doBackup create boot false).1.count (BackupEvent.createAttempt true) = 1)
    ∧ (boot.returncode ≠ 2 → (create true).returncode = 2 →
        (doBackup create boot false).1 =
          [BackupEvent.createAttempt false, BackupEvent.bootstrap,
            BackupEvent.createAttempt true]
        ∧ (doBackup create boot false).2 = RunOutcome.fatal) := by
  have hdec : createDecision (create false) false = .bootstrapRetry :=
    createDecision_bootstrapRetry h2 hdne
  by_cases hb : boot.returncode = 2
  · have hf : createRepoFatal boot = true := by simp [createRepoFatal, hb]
    rw [doBackup_of_bootstrapFatal hdec hf]
    refine ⟨by decide, by decide, fun h => absurd hb h, fun h => absurd hb h⟩
  · have hf : createRepoFatal boot = false := by simp [createRepoFatal, hb]
    rw [doBackup_of_bootstrapOk hdec hf, doBackup_retry_trace]
    refine ⟨by simp [List.count_cons], by simp [List.count_cons],
      fun _ => by simp [List.count_cons], fun _ hr2 => ?_⟩
    rw [@doBackup_of_reportFailure create boot true _ _ (createDecision_retry_of_code2 hr2)]
    exact ⟨rfl, rfl⟩

theorem do_backup_bootstrap_once_witness :
    (doBackup createAlwaysMissing ⟨0, []⟩ false).1 =
      [BackupEvent.createAttempt false, BackupEvent.bootstrap,
        BackupEvent.createAttempt true]
    ∧ (doBackup createAlwaysMissing ⟨0, []⟩ false).2 = RunOutcome.fatal :=
  (do_backup_bootstrap_once createAlwaysMissing ⟨0, []⟩ rfl
    (by decide)).2.2.2 (by decide) rfl

/-- The spec-side `BackupOutcome` classification of one create run, as the
code's branch structure realizes it (client.py lines 261–283): exit 0 and 1
are success branches, exit 2 is the failure branch carrying the accumulated
errors and warnings, and any other exit code takes no branch at all. -/
inductive BackupOutcome where
  | success
  | successWithWarnings (warnings : List LogLine)
  | failed (errors warnings : List LogLine)
  | noBranch
deriving Repr, DecidableEq

def classifyCreate (r : BorgResult) : BackupOutcome :=
  if r.returncode = 0 then .success
  else if r.returncode = 1 then .successWithWarnings (borgWarnings r.stderr)
  else if r.returncode = 2 then .failed (borgErrors r.stderr) (borgWarnings r.stderr)
  else .noBranch

/-- **C3 (counterexample).** The claim asserts that any exit code other than
0, 1 or 2 is "treated as an unrecoverable tool-invocation failure distinct
from Failed".  In the code no branch of `do_backup` handles such a code:
with exit code 3 the run takes no branch, reports nothing, performs no
bootstrap or retry, and returns normally — the same observable outcome as a
clean success, not any kind of failure. -/
theorem create_exit_contract_counterexample :
    classifyCreate ⟨3, []⟩ = BackupOutcome.noBranch
    ∧ doBackup (fun _ => ⟨3, []⟩) ⟨0, []⟩ false =
        ([BackupEvent.createAttempt false], RunOutcome.completed)
    ∧ doBackup (fun _ => ⟨0, []⟩) ⟨0, []⟩ false =
        ([BackupEvent.createAttempt false], RunOutcome.completed) := by
  refine ⟨rfl, ?_, ?_⟩
  · exact doBackup_of_noBranch (by simp [createDecision])
  · exact doBackup_of_reportSuccess (by simp [createDecision])

/-- **C3 (amended).** Exit code 0 maps to `Success`, 1 to
`SuccessWithWarnings` carrying the accumulated warnings, 2 to `Failed`
carrying the accumulated errors and warnings; any other exit code takes no
branch: nothing is classified or reported and `do_backup` completes
normally, with no bootstrap, retry, or fatal exit. -/
theorem create_exit_contract (r : BorgResult) :
    (r.returncode = 0 → classifyCreate r = .success)
    ∧ (r.returncode = 1 →
        classifyCreate r = .successWithWarnings (borgWarnings r.stderr))
    ∧ (r.returncode = 2 →
        classifyCreate r = .failed (borgErrors r.stderr) (borgWarnings r.stderr))
    ∧ (r.returncode ≠ 0 → r.returncode ≠ 1 → r.returncode ≠ 2 →
        classifyCreate r = .noBranch
        ∧ ∀ boot : BorgResult, doBackup (fun _ => r) boot false =
            ([BackupEvent.createAttempt false], RunOutcome.completed)) := by
  refine ⟨fun h0 => by simp [classifyCreate, h0],
    fun h1 => by simp [classifyCreate, h1],
    fun h2 => by simp [classifyCreate, h2],
    fun h0 h1 h2 => ⟨by simp [classifyCreate, h0, h1, h2], fun boot => ?_⟩⟩
  exact doBackup_of_noBranch (by simp [createDecision, h0, h1, h2])

theorem create_exit_contract_witness :
    classifyCreate ⟨2, [dneLine]⟩ =
      BackupOutcome.failed (borgErrors [dneLine]) (borgWarnings [dneLine]) :=
  (create_exit_contract ⟨2, [dneLine]⟩).2.2.1 rfl

theorem apply_config_gap_silent_witness :
    maxEpoch prevBase.updates < 1 ∧ (1 : Int) ≤ maxEpoch cfgGap.updates ∧
    lookupUpdate cfgGap.updates 1 = none ∧
    (SyncEvent.attempt 1 ∈ syncTrace cfgGap prevBase
    ∧ (∀ s, SyncEvent.run 1 s ∉ syncTrace cfgGap prevBase)
    ∧ ∀ e, maxEpoch prevBase.updates < e → e ≤ maxEpoch cfgGap.updates →
        SyncEvent.attempt e ∈ syncTrace cfgGap prevBase) :=
  ⟨by decide, by decide, by decide,
    apply_config_gap_silent cfgGap prevBase 1 (by decide) (by decide) (by decide)⟩

end BackupClient

namespace FindMissing

/-- A calendar date, as `datetime.date` carries it. -/
structure Date where
  year : Nat
  month : Nat
  day : Nat
deriving Repr, DecidableEq

/-- A timestamp as parsed by `datetime.datetime.fromisoformat`: a calendar
date plus a time of day.  `Timestamp.date` is Python's `.date()`. -/
structure Timestamp where
  date : Date
  hour : Nat
  minute : Nat
  second : Nat
deriving Repr, DecidableEq

/-- One entry of the parsed archive listing: its creation timestamp. -/
structure Archive where
  time : Timestamp
deriving Repr, DecidableEq

/-- A stderr line of the listing command as `check_repo_is_missing_backups`
sees it: either it fails to parse as JSON (ignored) or it is an object with
an optional `msgid` and an optional `message` field. -/
inductive AuditLogLine where
  | junk
  | msg (msgid : Option String) (message : Option String)
deriving Repr, DecidableEq

/-- The `BorgError` text raised after the error-scanning loop:
`'Borg exited with error status:\n' + '\n'.join('(borg): ' + m ...)`. -/
def borgErrorText (msgs : List String) : String :=
  "Borg exited with error status:\n"
    ++ String.intercalate "\n" (msgs.map (fun m => "(borg): " ++ m))

/-- The `message` field of a parsed line, when present. -/
def messageOf : AuditLogLine → Option String
  | .msg _ (some m) => some m
  | _ => none

/-- Whether a parsed line's `msgid` equals `Repository.DoesNotExist`. -/
def hasDNE : AuditLogLine → Bool
  | .msg mid _ => mid == some "Repository.DoesNotExist"
  | .junk => false

/-- The exit-code-2 loop of `check_repo_is_missing_backups`: scan stderr
lines in order; at the first line whose `msgid` is `Repository.DoesNotExist`
return `True` (missing); otherwise accumulate each line's `message`; after
the loop raise `BorgError` with the concatenated messages. -/
def scanRc2 : List AuditLogLine → List String → Except String Bool
  | [], acc => .error (borgErrorText acc)
  | .junk :: rest, acc => scanRc2 rest acc
  | .msg mid mmsg :: rest, acc =>
      if mid == some "Repository.DoesNotExist" then .ok true
      else
        match mmsg with
        | some m => scanRc2 rest (acc ++ [m])
        | none => scanRc2 rest acc

/-- `check_repo_is_missing_backups`, given the listing subprocess's exit
code, its parsed stderr lines, the archive listing parsed from its stdout,
and the target date.  Returns `ok true` when the repository is missing
backups for the date, `ok false` when a backup exists, and `error` when
Borg failed for a reason other than a missing repository. -/
def checkRepoIsMissingBackups (returncode : Int) (stderr : List AuditLogLine)
    (archives : List Archive) (date : Date) : Except String Bool :=
  if returncode = 2 then scanRc2 stderr []
  else .ok (!(archives.any (fun a => a.time.date == date)))

theorem scanRc2_of_dne (lines : List AuditLogLine) (acc : List String)
    (h : ∃ l ∈ lines, hasDNE l = true) : scanRc2 lines acc = .ok true := by
  induction lines generalizing acc with
  | nil => obtain ⟨l, hl, -⟩ := h; cases hl
  | cons hd tl ih =>
      obtain ⟨l, hl, hdne⟩ := h
      cases hd with
      | junk =>
          rcases List.mem_cons.mp hl with rfl | hl'
          · cases hdne
          · exact ih _ ⟨l, hl', hdne⟩
      | msg mid mmsg =>
          show scanRc2 (.msg mid mmsg :: tl) acc = .ok true
          unfold scanRc2
          by_cases hmid : (mid == some "Repository.DoesNotExist") = true
          · simp [hmid]
          · rcases List.mem_cons.mp hl with rfl | hl'
            · exact absurd hdne hmid
            · simp only [hmid, if_neg, Bool.false_eq_true, not_false_eq_true, if_false]
              cases mmsg with
              | some m => exact ih _ ⟨l, hl', hdne⟩
              | none => exact ih _ ⟨l, hl', hdne⟩

theorem scanRc2_of_no_dne (lines : List AuditLogLine) (acc : List String)
    (h : ∀ l ∈ lines, hasDNE l = false) :
    scanRc2 lines acc = .error (borgErrorText (acc ++ lines.filterMap messageOf)) := by
  induction lines generalizing acc with
  | nil => simp [scanRc2]
  | cons hd tl ih =>
      cases hd with
      | junk =>
          show scanRc2 (.junk :: tl) acc = _
          unfold scanRc2
          rw [ih _ (fun l hl => h l (List.mem_cons_of_mem _ hl))]
          simp [messageOf]
      | msg mid mmsg =>
          have hmid : (mid == some "Repository.DoesNotExist") = false :=
            h _ (List.mem_cons_self _ _)
          show scanRc2 (.msg mid mmsg :: tl) acc = _
          unfold scanRc2
          simp only [hmid, Bool.false_eq_true, if_false]
          cases mmsg with
          | some m =>
              show scanRc2 tl (acc ++ [m]) = _
              rw [ih (acc ++ [m]) (fun l hl => h l (List.mem_cons_of_mem _ hl))]
              simp [messageOf, List.append_assoc]
          | none =>
              show scanRc2 tl acc = _
              rw [ih acc (fun l hl => h l (List.mem_cons_of_mem _ hl))]
              simp [messageOf]

/-- **C4.** `check_repo_is_missing_backups` classifies a repository as
follows: on exit code 2 with some stderr line whose `msgid` is
`Repository.DoesNotExist` it reports missing (`ok true`); on exit code 2
with no such line it raises a `BorgError` carrying the concatenated
messages of the parsed lines; on exit code 0 it reports not-missing
(`ok false`) exactly when some archive's timestamp has calendar date equal
to the target date, and missing otherwise. -/
theorem check_repo_classification (rc : Int) (stderr : List AuditLogLine)
    (archives : List Archive) (date : Date) :
    (rc = 2 → (∃ l ∈ stderr, hasDNE l = true) →
        checkRepoIsMissingBackups rc stderr archives date = .ok true)
    ∧ (rc = 2 → (∀ l ∈ stderr, hasDNE l = false) →
        checkRepoIsMissingBackups rc stderr archives date =
          .error (borgErrorText (stderr.filterMap messageOf)))
    ∧ (rc = 0 →
        checkRepoIsMissingBackups rc stderr archives date =
          .ok (!(archives.any (fun a => a.time.date == date)))
        ∧ ((!(archives.any (fun a => a.time.date == date))) = false ↔
            ∃ a ∈ archives, a.time.date = date)) := by
  refine ⟨fun h2 hdne => ?_, fun h2 hnone => ?_, fun h0 => ⟨?_, ?_⟩⟩
  · rw [checkRepoIsMissingBackups, if_pos h2]
    exact scanRc2_of_dne _ _ hdne
  · rw [checkRepoIsMissingBackups, if_pos h2]
    rw [scanRc2_of_no_dne _ _ hnone]
    simp
  · rw [checkRepoIsMissingBackups, if_neg (by omega)]
  · simp [List.any_eq_true]

theorem check_repo_classification_witness :
    checkRepoIsMissingBackups 2
      [AuditLogLine.msg (some "Repository.DoesNotExist") none] [] ⟨2024, 1, 1⟩ =
      .ok true :=
  (check_repo_classification 2
    [AuditLogLine.msg (some "Repository.DoesNotExist") none] [] ⟨2024, 1, 1⟩).1
    rfl (by decide)

/-- Whether a year is a leap year, as `datetime` computes it. -/
def isLeapYear (y : Nat) : Bool :=
  y % 4 == 0 && (y % 100 != 0 || y % 400 == 0)

/-- Days in a month, as `datetime` validates `date.replace(day=...)`. -/
def daysInMonth (y m : Nat) : Nat :=
  if m = 2 then (if isLeapYear y then 29 else 28)
  else if m = 4 ∨ m = 6 ∨ m = 9 ∨ m = 11 then 30
  else 31

/-- `today.replace(day=d)`: valid exactly when `1 <= d <= daysInMonth`,
otherwise `datetime` raises `ValueError` (modelled as `none`). -/
def dateReplaceDay (today : Date) (d : Nat) : Option Date :=
  if 1 ≤ d ∧ d ≤ daysInMonth today.year today.month then
    some ⟨today.year, today.month, d⟩
  else none

/-- The audit tool's default date when no date argument is given:
`today.replace(day=today.day - 1)` (find_missing.py line 242). -/
def defaultAuditDate (today : Date) : Option Date :=
  dateReplaceDay today (today.day - 1)

/-- A structurally valid `datetime.date`. -/
def validDate (d : Date) : Prop :=
  1 ≤ d.month ∧ d.month ≤ 12 ∧ 1 ≤ d.day ∧ d.day ≤ daysInMonth d.year d.month

/-- **C10.** With no date argument, the default date is computed by
replacing today's day-of-month with `day - 1`; for any valid today this
succeeds exactly when the day-of-month is at least 2 (yielding the same
month and year with the day decremented), and on the first of a month the
replacement raises `ValueError` instead of producing the previous day. -/
theorem default_audit_date_replace (today : Date) (hv : validDate today) :
    ((defaultAuditDate today).isSome ↔ 2 ≤ today.day)
    ∧ (∀ d, defaultAuditDate today = some d →
        d = ⟨today.year, today.month, today.day - 1⟩)
    ∧ (today.day = 1 → defaultAuditDate today = none) := by
  obtain ⟨h1, h2, h3, h4⟩ := hv
  unfold defaultAuditDate dateReplaceDay
  refine ⟨?_, ?_, ?_⟩
  · by_cases h : 1 ≤ today.day - 1 ∧ today.day - 1 ≤ daysInMonth today.year today.month
    · rw [if_pos h]
      simp only [Option.isSome_some, true_iff]
      omega
    · rw [if_neg h]
      simp only [Option.isSome_none, Bool.false_eq_true, false_iff]
      omega
  · intro d hd
    by_cases h : 1 ≤ today.day - 1 ∧ today.day - 1 ≤ daysInMonth today.year today.month
    · rw [if_pos h] at hd
      exact (Option.some_inj.mp hd).symm
    · rw [if_neg h] at hd
      cases hd
  · intro h1d
    rw [if_neg (by omega)]

theorem default_audit_date_replace_witness :
    validDate ⟨2024, 3, 1⟩ ∧ defaultAuditDate ⟨2024, 3, 1⟩ = none ∧
    validDate ⟨2024, 3, 15⟩ ∧ (defaultAuditDate ⟨2024, 3, 15⟩).isSome = true :=
  ⟨by unfold validDate; decide,
    (default_audit_date_replace ⟨2024, 3, 1⟩ (by unfold validDate; decide)).2.2 rfl,
    by unfold validDate; decide,
    (default_audit_date_replace ⟨2024, 3, 15⟩
      (by unfold validDate; decide)).1.mpr (by decide)⟩

/-- The per-repository value that `asyncio.gather(..., return_exceptions=True)`
hands back for one inspection: `True` (missing), `False` (present), or a
raised exception captured as its detail text. -/
inductive AuditOutcome where
  | missing
  | present
  | errored (detail : String)
deriving Repr, DecidableEq

/-- The result-sorting loop of `main` (find_missing.py lines 255–264), over
`zip(REPOS_TO_CHECK, results)`: `True` appends the repo to `missing`,
`False` does nothing, and any other value appends `(repo, result)` to
`errors`, preserving the zip order. -/
def auditSort : List (String × AuditOutcome) → List String × List (String × String)
  | [] => ([], [])
  | (repo, r) :: rest =>
      let s := auditSort rest
      match r with
      | .missing => (repo :: s.1, s.2)
      | .present => s
      | .errored d => (s.1, (repo, d) :: s.2)

/-- The repositories whose inspection returned `False`: the loop leaves them
untouched (`pass`), so the present set is the zip pairs carrying `present`. -/
def auditPresent (pairs : List (String × AuditOutcome)) : List String :=
  (pairs.filter (fun p => p.2 == AuditOutcome.present)).map Prod.fst

theorem nodup_keys_eq {α β : Type} {l : List (α × β)}
    (h : (l.map Prod.fst).Nodup) {a : α} {b b' : β}
    (h1 : (a, b) ∈ l) (h2 : (a, b') ∈ l) : b = b' := by
  induction l with
  | nil => cases h1
  | cons hd tl ih =>
      rw [List.map_cons, List.nodup_cons] at h
      rcases List.mem_cons.mp h1 with rfl | h1'
      · rcases List.mem_cons.mp h2 with heq | h2'
        · exact ((Prod.mk.injEq _ _ _ _).mp heq.symm).2
        · exact absurd (List.mem_map.mpr ⟨(a, b'), h2', rfl⟩) h.1
      · rcases List.mem_cons.mp h2 with heq | h2'
        · exact absurd (List.mem_map.mpr ⟨(a, b), h1', by rw [← heq]⟩) h.1
        · exact ih h.2 h1' h2'

theorem auditPresent_cons (repo : String) (o : AuditOutcome)
    (tl : List (String × AuditOutcome)) :
    auditPresent ((repo, o) :: tl) =
      if o == AuditOutcome.present then repo :: auditPresent tl
      else auditPresent tl := by
  cases o <;> simp [auditPresent, List.filter_cons]

theorem mem_auditSort_missing {pairs : List (String × AuditOutcome)} {r : String} :
    r ∈ (auditSort pairs).1 ↔ (r, AuditOutcome.missing) ∈ pairs := by
  induction pairs with
  | nil => simp [auditSort]
  | cons hd tl ih =>
      obtain ⟨repo, o⟩ := hd
      cases o <;> simp [auditSort, ih]

theorem mem_auditSort_errors {pairs : List (String × AuditOutcome)}
    {r d : String} :
    (r, d) ∈ (auditSort pairs).2 ↔ (r, AuditOutcome.errored d) ∈ pairs := by
  induction pairs with
  | nil => simp [auditSort]
  | cons hd tl ih =>
      obtain ⟨repo, o⟩ := hd
      cases o <;> simp [auditSort, ih]

theorem mem_auditPresent {pairs : List (String × AuditOutcome)} {r : String} :
    r ∈ auditPresent pairs ↔ (r, AuditOutcome.present) ∈ pairs := by
  unfold auditPresent
  rw [List.mem_map]
  constructor
  · rintro ⟨⟨a, b⟩, hab, rfl⟩
    rw [List.mem_filter] at hab
    have : b = AuditOutcome.present := by simpa using hab.2
    subst this
    exact hab.1
  · intro hmem
    exact ⟨(r, AuditOutcome.present), List.mem_filter.mpr ⟨hmem, by simp⟩, rfl⟩

theorem auditSort_length (pairs : List (String × AuditOutcome)) :
    (auditSort pairs).1.length + (auditSort pairs).2.length
      + (auditPresent pairs).length = pairs.length := by
  induction pairs with
  | nil => rfl
  | cons hd tl ih =>
      obtain ⟨repo, o⟩ := hd
      cases o <;> simp [auditSort, auditPresent_cons] <;> omega

/-- **C5.** The audit's result-sorting loop partitions the zipped
(repository, outcome) list: the sizes of the missing, errored, and present
sets sum to the input length; for distinct repository names the three sets
are pairwise disjoint; and every input repository lands in one of them. -/
theorem audit_report_partition (pairs : List (String × AuditOutcome))
    (hnd : (pairs.map Prod.fst).Nodup) :
    ((auditSort pairs).1.length + (auditSort pairs).2.length
      + (auditPresent pairs).length = pairs.length)
    ∧ (∀ r, ¬(r ∈ (auditSort pairs).1 ∧ r ∈ auditPresent pairs))
    ∧ (∀ r, ¬(r ∈ (auditSort pairs).1 ∧ r ∈ (auditSort pairs).2.map Prod.fst))
    ∧ (∀ r, ¬(r ∈ auditPresent pairs ∧ r ∈ (auditSort pairs).2.map Prod.fst))
    ∧ (∀ r o, (r, o) ∈ pairs →
        r ∈ (auditSort pairs).1 ∨ r ∈ auditPresent pairs
          ∨ r ∈ (auditSort pairs).2.map Prod.fst) := by
  have herrfst : ∀ r : String, r ∈ (auditSort pairs).2.map Prod.fst ↔
      ∃ d, (r, AuditOutcome.errored d) ∈ pairs := by
    intro r
    rw [List.mem_map]
    constructor
    · rintro ⟨⟨a, d⟩, hmem, rfl⟩
      exact ⟨d, mem_auditSort_errors.mp hmem⟩
    · rintro ⟨d, hmem⟩
      exact ⟨(r, d), mem_auditSort_errors.mpr hmem, rfl⟩
  refine ⟨auditSort_length pairs, ?_, ?_, ?_, ?_⟩
  · rintro r ⟨hm, hp⟩
    exact absurd (nodup_keys_eq hnd (mem_auditSort_missing.mp hm)
      (mem_auditPresent.mp hp)) (by simp)
  · rintro r ⟨hm, he⟩
    obtain ⟨d, hd⟩ := (herrfst r).mp he
    exact absurd (nodup_keys_eq hnd (mem_auditSort_missing.mp hm) hd) (by simp)
  · rintro r ⟨hp, he⟩
    obtain ⟨d, hd⟩ := (herrfst r).mp he
    exact absurd (nodup_keys_eq hnd (mem_auditPresent.mp hp) hd) (by simp)
  · intro r o hmem
    cases o with
    | missing => exact Or.inl (mem_auditSort_missing.mpr hmem)
    | present => exact Or.inr (Or.inl (mem_auditPresent.mpr hmem))
    | errored d => exact Or.inr (Or.inr ((herrfst r).mpr ⟨d, hmem⟩))

/-- Concrete audit input for the C5 witness: one missing, one present, one
errored repository. -/
def pairsW : List (String × AuditOutcome) :=
  [("A1", .missing), ("A2", .present), ("A3", .errored "boom")]

theorem audit_report_partition_witness :
    (pairsW.map Prod.fst).Nodup ∧
    ((auditSort pairsW).1.length + (auditSort pairsW).2.length
      + (auditPresent pairsW).length = pairsW.length)
    ∧ (∀ r, ¬(r ∈ (auditSort pairsW).1 ∧ r ∈ auditPresent pairsW))
    ∧ (∀ r, ¬(r ∈ (auditSort pairsW).1 ∧ r ∈ (auditSort pairsW).2.map Prod.fst))
    ∧ (∀ r, ¬(r ∈ auditPresent pairsW ∧ r ∈ (auditSort pairsW).2.map Prod.fst))
    ∧ (∀ r o, (r, o) ∈ pairsW →
        r ∈ (auditSort pairsW).1 ∨ r ∈ auditPresent pairsW
          ∨ r ∈ (auditSort pairsW).2.map Prod.fst) :=
  ⟨by decide, audit_report_partition pairsW (by decide)⟩

/-- The fan-in of `asyncio.gather`: completion events arrive as
(task index, outcome) pairs in an arbitrary order, and `gather` places each
task's result at the task's index, so the i-th result slot of the returned
list holds the outcome of the i-th launched inspection. -/
def gatherFromEvents (events : List (Nat × AuditOutcome)) (n : Nat) :
    List (Option AuditOutcome) :=
  (List.range n).map fun i => (events.find? (fun p => p.1 == i)).map Prod.snd

theorem gatherFromEvents_perm_enum (outcomes : List AuditOutcome)
    (events : List (Nat × AuditOutcome)) (h : events.Perm outcomes.enum) :
    gatherFromEvents events outcomes.length = outcomes.map some := by
  have hkeys : (events.map Prod.fst).Nodup := by
    rw [(h.map Prod.fst).nodup_iff, List.enum_map_fst]
    exact List.nodup_range _
  apply List.ext_getElem
  · simp [gatherFromEvents]
  · intro i h1 h2
    have hlen : i < outcomes.length := by
      simpa [gatherFromEvents] using h1
    simp only [gatherFromEvents, List.getElem_map, List.getElem_range]
    have hmem : (i, outcomes[i]) ∈ events := by
      refine h.mem_iff.mpr (List.mk_mem_enum_iff_getElem?.mpr ?_)
      simp [List.getElem?_eq_getElem, hlen]
    obtain ⟨x, hfind⟩ : ∃ x, events.find? (fun p => p.1 == i) = some x := by
      have : (events.find? (fun p => p.1 == i)).isSome :=
        List.find?_isSome.mpr ⟨_, hmem, by simp⟩
      exact Option.isSome_iff_exists.mp this
    obtain ⟨x1, x2⟩ := x
    have hx1 : x1 = i := by simpa using List.find?_some hfind
    subst hx1
    have hxmem := List.mem_of_find?_eq_some hfind
    have hx2 := nodup_keys_eq hkeys hxmem hmem
    rw [hfind, hx2]
    rfl

theorem auditSort_missing_sublist (pairs : List (String × AuditOutcome)) :
    (auditSort pairs).1.Sublist (pairs.map Prod.fst) := by
  induction pairs with
  | nil => simp [auditSort]
  | cons hd tl ih =>
      obtain ⟨repo, o⟩ := hd
      cases o with
      | missing => exact ih.cons₂ repo
      | present => exact ih.cons repo
      | errored d => exact ih.cons repo

theorem auditSort_errors_sublist (pairs : List (String × AuditOutcome)) :
    ((auditSort pairs).2.map Prod.fst).Sublist (pairs.map Prod.fst) := by
  induction pairs with
  | nil => simp [auditSort]
  | cons hd tl ih =>
      obtain ⟨repo, o⟩ := hd
      cases o with
      | missing => exact ih.cons repo
      | present => exact ih.cons repo
      | errored d => exact ih.cons₂ repo

theorem map_fst_zip_sublist (l1 : List String) (l2 : List AuditOutcome) :
    ((l1.zip l2).map Prod.fst).Sublist l1 := by
  induction l1 generalizing l2 with
  | nil => simp
  | cons a t ih =>
      cases l2 with
      | nil => simp
      | cons b t2 => simpa using (ih t2).cons₂ a

/-- **C6.** The audit report does not depend on the order in which the
concurrent inspections complete: any two completion schedules (permutations
of the indexed outcomes) make `gather` return the same result list — the
outcomes in launch order — and the missing and errored lists of the sorted
report are in-order subsequences of the input repository list. -/
theorem audit_completion_order_deterministic (repos : List String)
    (outcomes : List AuditOutcome) (events1 events2 : List (Nat × AuditOutcome))
    (h1 : events1.Perm outcomes.enum) (h2 : events2.Perm outcomes.enum) :
    gatherFromEvents events1 outcomes.length
      = gatherFromEvents events2 outcomes.length
    ∧ gatherFromEvents events1 outcomes.length = outcomes.map some
    ∧ (auditSort (repos.zip outcomes)).1.Sublist repos
    ∧ ((auditSort (repos.zip outcomes)).2.map Prod.fst).Sublist repos := by
  refine ⟨?_, gatherFromEvents_perm_enum outcomes events1 h1, ?_, ?_⟩
  · rw [gatherFromEvents_perm_enum outcomes events1 h1,
      gatherFromEvents_perm_enum outcomes events2 h2]
  · exact (auditSort_missing_sublist _).trans (map_fst_zip_sublist repos outcomes)
  · exact (auditSort_errors_sublist _).trans (map_fst_zip_sublist repos outcomes)

/-- Concrete outcomes for the C6 witness. -/
def outcomesW : List AuditOutcome := [.missing, .present, .errored "boom"]

theorem audit_completion_order_deterministic_witness :
    gatherFromEvents outcomesW.enum.reverse outcomesW.length
      = gatherFromEvents outcomesW.enum outcomesW.length
    ∧ gatherFromEvents outcomesW.enum.reverse outcomesW.length
      = outcomesW.map some
    ∧ (auditSort (["A1", "A2", "A3"].zip outcomesW)).1.Sublist ["A1", "A2", "A3"]
    ∧ ((auditSort (["A1", "A2", "A3"].zip outcomesW)).2.map Prod.fst).Sublist
        ["A1", "A2", "A3"] :=
  audit_completion_order_deterministic ["A1", "A2", "A3"] outcomesW
    outcomesW.enum.reverse outcomesW.enum
    (List.reverse_perm _) (List.Perm.refl _)

end FindMissing

namespace ConfigStore

/-- A JSON-like document value as `json.load` produces it. -/
inductive JValue where
  | str (s : String)
  | num (n : Int)
  | jbool (b : Bool)
  | null
  | arr (elems : List JValue)
  | obj (fields : List (String × JValue))

/-- Python `d[key]` read on a dict: the binding of `key`, if any. -/
def lookupField (fields : List (String × JValue)) (k : String) : Option JValue :=
  (fields.find? (fun p => p.1 == k)).map Prod.snd

/-- Python `d[key] = v` on a dict: replaces the value of an existing key in
place (preserving insertion order) or appends a new binding at the end. -/
def setField : List (String × JValue) → String → JValue → List (String × JValue)
  | [], k, v => [(k, v)]
  | (k', v') :: rest, k, v =>
      if k' == k then (k', v) :: rest else (k', v') :: setField rest k v

/-- `fill_struct_with_defaults(source, default)` (client.py lines 114–121):
for each default key in order — a key missing from the source is copied in;
a key whose current value is a dict is merged recursively (Python raises
`AttributeError`, modelled as `none`, when the default's value for it is
not itself a dict); a key whose current value is the empty string is
overwritten with the default; any other present value is left alone.
Returns the mutated source. -/
def fillStruct : List (String × JValue) → List (String × JValue) →
    Option (List (String × JValue))
  | source, [] => some source
  | source, (k, dv) :: rest =>
      match lookupField source k with
      | none => fillStruct (setField source k dv) rest
      | some (JValue.obj sfields) =>
          match dv with
          | JValue.obj dfields =>
              match fillStruct sfields dfields with
              | some merged =>
                  fillStruct (setField source k (JValue.obj merged)) rest
              | none => none
          | _ => none
      | some (JValue.str s) =>
          if s == "" then fillStruct (setField source k dv) rest
          else fillStruct source rest
      | some _ => fillStruct source rest
termination_by _ default => sizeOf default
decreasing_by all_goals simp_wf <;> omega

theorem lookupField_cons (k0 : String) (v0 : JValue)
    (rest : List (String × JValue)) (k : String) :
    lookupField ((k0, v0) :: rest) k =
      if k0 == k then some v0 else lookupField rest k := by
  by_cases hk : (k0 == k) = true <;> simp [lookupField, List.find?_cons, hk]

theorem lookupField_eq_none_of_not_mem {fields : List (String × JValue)}
    {k : String} (h : k ∉ fields.map Prod.fst) : lookupField fields k = none := by
  unfold lookupField
  rw [Option.map_eq_none', List.find?_eq_none]
  intro x hx hbeq
  exact h (List.mem_map.mpr ⟨x, hx, by simpa using hbeq⟩)

theorem lookupField_setField_self (s : List (String × JValue)) (k : String)
    (v : JValue) : lookupField (setField s k v) k = some v := by
  induction s with
  | nil => simp [setField, lookupField, List.find?_cons]
  | cons hd tl ih =>
      obtain ⟨k', v'⟩ := hd
      by_cases hk : (k' == k) = true
      · simp [setField, hk, lookupField, List.find?_cons]
      · simp only [setField, hk, Bool.false_eq_true, if_false]
        rw [lookupField_cons, if_neg hk]
        exact ih

theorem lookupField_setField_ne (s : List (String × JValue)) {k k' : String}
    (h : k' ≠ k) (v : JValue) :
    lookupField (setField s k v) k' = lookupField s k' := by
  induction s with
  | nil =>
      simp only [setField]
      rw [lookupField_cons, if_neg (by simpa using fun e => h e.symm)]
  | cons hd tl ih =>
      obtain ⟨k0, v0⟩ := hd
      by_cases hk : (k0 == k) = true
      · have hk0 : k0 = k := by simpa using hk
        subst hk0
        simp only [setField, beq_self_eq_true, if_true]
        rw [lookupField_cons, lookupField_cons,
          if_neg (by simpa using fun e => h e.symm),
          if_neg (by simpa using fun e => h e.symm)]
      · simp only [setField, hk, Bool.false_eq_true, if_false]
        rw [lookupField_cons, lookupField_cons]
        by_cases hq : (k0 == k') = true
        · rw [if_pos hq, if_pos hq]
        · rw [if_neg hq, if_neg hq]
          exact ih

theorem fillStruct_nil (source : List (String × JValue)) :
    fillStruct source [] = some source := by
  rw [fillStruct.eq_def]

theorem fillStruct_cons_none {source : List (String × JValue)} {k : String}
    (dv : JValue) (rest : List (String × JValue))
    (h : lookupField source k = none) :
    fillStruct source ((k, dv) :: rest) = fillStruct (setField source k dv) rest := by
  rw [fillStruct.eq_def]
  simp only [h]

theorem fillStruct_cons_str {source : List (String × JValue)} {k : String}
    {s : String} (dv : JValue) (rest : List (String × JValue))
    (h : lookupField source k = some (JValue.str s)) :
    fillStruct source ((k, dv) :: rest) =
      if s == "" then fillStruct (setField source k dv) rest
      else fillStruct source rest := by
  rw [fillStruct.eq_def]
  simp only [h]

theorem fillStruct_cons_obj {source : List (String × JValue)} {k : String}
    {sfields : List (String × JValue)} (dv : JValue)
    (rest : List (String × JValue))
    (h : lookupField source k = some (JValue.obj sfields)) :
    fillStruct source ((k, dv) :: rest) =
      match dv with
      | JValue.obj dfields =>
          match fillStruct sfields dfields with
          | some merged => fillStruct (setField source k (JValue.obj merged)) rest
          | none => none
      | _ => none := by
  rw [fillStruct.eq_def]
  simp only [h]

theorem fillStruct_cons_other {source : List (String × JValue)} {k : String}
    {v : JValue} (dv : JValue) (rest : List (String × JValue))
    (h : lookupField source k = some v) (h1 : ∀ s, v ≠ JValue.str s)
    (h2 : ∀ f, v ≠ JValue.obj f) :
    fillStruct source ((k, dv) :: rest) = fillStruct source rest := by
  cases v with
  | str s => exact absurd rfl (h1 s)
  | obj f => exact absurd rfl (h2 f)
  | num n => rw [fillStruct.eq_def]; simp only [h]
  | jbool b => rw [fillStruct.eq_def]; simp only [h]
  | null => rw [fillStruct.eq_def]; simp only [h]
  | arr a => rw [fillStruct.eq_def]; simp only [h]

/-- The per-key behaviour of one `fill_struct_with_defaults` call: missing
keys and empty-string keys take the default, nested dicts merge
recursively, all other present values and all keys outside the default are
untouched, and a dict in the source at a default key forces the default's
value there to be a dict too (else the call would have crashed). -/
def FillSpec (default source out : List (String × JValue)) : Prop :=
  (∀ k, lookupField default k = none → lookupField out k = lookupField source k)
  ∧ (∀ k dv, lookupField default k = some dv → lookupField source k = none →
      lookupField out k = some dv)
  ∧ (∀ k dv, lookupField default k = some dv →
      lookupField source k = some (JValue.str "") → lookupField out k = some dv)
  ∧ (∀ k v, lookupField source k = some v → v ≠ JValue.str "" →
      (∀ f, v ≠ JValue.obj f) → lookupField out k = some v)
  ∧ (∀ k dfields sfields, lookupField default k = some (JValue.obj dfields) →
      lookupField source k = some (JValue.obj sfields) →
      ∃ merged, fillStruct sfields dfields = some merged ∧
        lookupField out k = some (JValue.obj merged))
  ∧ (∀ k dv sfields, lookupField default k = some dv →
      lookupField source k = some (JValue.obj sfields) →
      ∃ dfields, dv = JValue.obj dfields)

theorem fillStruct_spec_scalar_step (k0 : String) (dv0 : JValue)
    (rest source out : List (String × JValue))
    (hk0rest : lookupField rest k0 = none)
    {v0 : JValue} (hsrc : lookupField source k0 = some v0)
    (hnstr : ∀ s, v0 ≠ JValue.str s) (hnobj0 : ∀ f, v0 ≠ JValue.obj f)
    (hrest : FillSpec rest source out) :
    FillSpec ((k0, dv0) :: rest) source out := by
  obtain ⟨c1, c2, c3, c4, c5, c6⟩ := hrest
  have hbcase : ∀ k : String, (k0 == k) = true → k = k0 := by
    intro k hb
    exact (eq_of_beq hb).symm
  refine ⟨?_, ?_, ?_, ?_, ?_, ?_⟩
  · intro k hdk
    rw [lookupField_cons] at hdk
    by_cases hb : (k0 == k) = true
    · rw [if_pos hb] at hdk; cases hdk
    · rw [if_neg hb] at hdk
      exact c1 k hdk
  · intro k dv hdk hsk
    rw [lookupField_cons] at hdk
    by_cases hb : (k0 == k) = true
    · obtain rfl := hbcase k hb
      rw [hsrc] at hsk; cases hsk
    · rw [if_neg hb] at hdk
      exact c2 k dv hdk hsk
  · intro k dv hdk hsk
    rw [lookupField_cons] at hdk
    by_cases hb : (k0 == k) = true
    · obtain rfl := hbcase k hb
      rw [hsrc] at hsk
      obtain rfl : v0 = JValue.str "" := by cases hsk; rfl
      exact absurd rfl (hnstr "")
    · rw [if_neg hb] at hdk
      exact c3 k dv hdk hsk
  · intro k v hsk hne hnobj
    exact c4 k v hsk hne hnobj
  · intro k dfields sfields hdk hsk
    rw [lookupField_cons] at hdk
    by_cases hb : (k0 == k) = true
    · obtain rfl := hbcase k hb
      rw [hsrc] at hsk
      obtain rfl : v0 = JValue.obj sfields := by cases hsk; rfl
      exact absurd rfl (hnobj0 sfields)
    · rw [if_neg hb] at hdk
      exact c5 k dfields sfields hdk hsk
  · intro k dv sfields hdk hsk
    rw [lookupField_cons] at hdk
    by_cases hb : (k0 == k) = true
    · obtain rfl := hbcase k hb
      rw [hsrc] at hsk
      obtain rfl : v0 = JValue.obj sfields := by cases hsk; rfl
      exact absurd rfl (hnobj0 sfields)
    · rw [if_neg hb] at hdk
      exact c6 k dv sfields hdk hsk


theorem fillStruct_spec :
    ∀ (default source out : List (String × JValue)),
      (default.map Prod.fst).Nodup →
      fillStruct source default = some out →
      FillSpec default source out := by
  intro default
  induction default with
  | nil =>
      intro source out hnd h
      rw [fillStruct_nil] at h
      obtain rfl : source = out := by cases h; rfl
      refine ⟨fun k _ => rfl, fun k dv hdk => ?_, fun k dv hdk => ?_,
        fun k v hsk _ _ => hsk, fun k df sf hdk => ?_, fun k dv sf hdk => ?_⟩
      all_goals simp [lookupField] at hdk
  | cons hd rest ih =>
      obtain ⟨k0, dv0⟩ := hd
      intro source out hnd h
      rw [List.map_cons, List.nodup_cons] at hnd
      obtain ⟨hk0, hndrest⟩ := hnd
      have hk0rest : lookupField rest k0 = none :=
        lookupField_eq_none_of_not_mem hk0
      have hbcase : ∀ k : String, (k0 == k) = true → k = k0 := by
        intro k hb
        exact (eq_of_beq hb).symm
      cases hsrc : lookupField source k0 with
      | none =>
          rw [fillStruct_cons_none dv0 rest hsrc] at h
          obtain ⟨c1, c2, c3, c4, c5, c6⟩ := ih (setField source k0 dv0) out hndrest h
          have htrans : ∀ k, k ≠ k0 →
              lookupField (setField source k0 dv0) k = lookupField source k :=
            fun k hk => lookupField_setField_ne source hk dv0
          have hout0 : lookupField out k0 = some dv0 := by
            rw [c1 k0 hk0rest, lookupField_setField_self]
          refine ⟨?_, ?_, ?_, ?_, ?_, ?_⟩
          · intro k hdk
            rw [lookupField_cons] at hdk
            by_cases hb : (k0 == k) = true
            · rw [if_pos hb] at hdk; cases hdk
            · rw [if_neg hb] at hdk
              have hkne : k ≠ k0 := fun e => hb (by rw [e, beq_self_eq_true])
              rw [c1 k hdk, htrans k hkne]
          · intro k dv hdk hsk
            rw [lookupField_cons] at hdk
            by_cases hb : (k0 == k) = true
            · obtain rfl := hbcase k hb
              rw [if_pos hb] at hdk
              obtain rfl : dv0 = dv := by cases hdk; rfl
              exact hout0
            · rw [if_neg hb] at hdk
              have hkne : k ≠ k0 := fun e => hb (by rw [e, beq_self_eq_true])
              exact c2 k dv hdk (by rw [htrans k hkne]; exact hsk)
          · intro k dv hdk hsk
            rw [lookupField_cons] at hdk
            by_cases hb : (k0 == k) = true
            · obtain rfl := hbcase k hb
              rw [hsrc] at hsk; cases hsk
            · rw [if_neg hb] at hdk
              have hkne : k ≠ k0 := fun e => hb (by rw [e, beq_self_eq_true])
              exact c3 k dv hdk (by rw [htrans k hkne]; exact hsk)
          · intro k v hsk hne hnobj
            by_cases hb : (k0 == k) = true
            · obtain rfl := hbcase k hb
              rw [hsrc] at hsk; cases hsk
            · have hkne : k ≠ k0 := fun e => hb (by rw [e, beq_self_eq_true])
              exact c4 k v (by rw [htrans k hkne]; exact hsk) hne hnobj
          · intro k dfields sfields hdk hsk
            by_cases hb : (k0 == k) = true
            · obtain rfl := hbcase k hb
              rw [hsrc] at hsk; cases hsk
            · rw [lookupField_cons, if_neg hb] at hdk
              have hkne : k ≠ k0 := fun e => hb (by rw [e, beq_self_eq_true])
              exact c5 k dfields sfields hdk (by rw [htrans k hkne]; exact hsk)
          · intro k dv sfields hdk hsk
            by_cases hb : (k0 == k) = true
            · obtain rfl := hbcase k hb
              rw [hsrc] at hsk; cases hsk
            · rw [lookupField_cons, if_neg hb] at hdk
              have hkne : k ≠ k0 := fun e => hb (by rw [e, beq_self_eq_true])
              exact c6 k dv sfields hdk (by rw [htrans k hkne]; exact hsk)
      | some v0 =>
          cases v0 with
          | str s =>
              rw [fillStruct_cons_str dv0 rest hsrc] at h
              by_cases hs : (s == "") = true
              · rw [if_pos hs] at h
                obtain rfl : s = "" := eq_of_beq hs
                obtain ⟨c1, c2, c3, c4, c5, c6⟩ :=
                  ih (setField source k0 dv0) out hndrest h
                have htrans : ∀ k, k ≠ k0 →
                    lookupField (setField source k0 dv0) k = lookupField source k :=
                  fun k hk => lookupField_setField_ne source hk dv0
                have hout0 : lookupField out k0 = some dv0 := by
                  rw [c1 k0 hk0rest, lookupField_setField_self]
                refine ⟨?_, ?_, ?_, ?_, ?_, ?_⟩
                · intro k hdk
                  rw [lookupField_cons] at hdk
                  by_cases hb : (k0 == k) = true
                  · rw [if_pos hb] at hdk; cases hdk
                  · rw [if_neg hb] at hdk
                    have hkne : k ≠ k0 := fun e => hb (by rw [e, beq_self_eq_true])
                    rw [c1 k hdk, htrans k hkne]
                · intro k dv hdk hsk
                  rw [lookupField_cons] at hdk
                  by_cases hb : (k0 == k) = true
                  · obtain rfl := hbcase k hb
                    rw [hsrc] at hsk; cases hsk
                  · rw [if_neg hb] at hdk
                    have hkne : k ≠ k0 := fun e => hb (by rw [e, beq_self_eq_true])
                    exact c2 k dv hdk (by rw [htrans k hkne]; exact hsk)
                · intro k dv hdk hsk
                  rw [lookupField_cons] at hdk
                  by_cases hb : (k0 == k) = true
                  · obtain rfl := hbcase k hb
                    rw [if_pos hb] at hdk
                    obtain rfl : dv0 = dv := by cases hdk; rfl
                    exact hout0
                  · rw [if_neg hb] at hdk
                    have hkne : k ≠ k0 := fun e => hb (by rw [e, beq_self_eq_true])
                    exact c3 k dv hdk (by rw [htrans k hkne]; exact hsk)
                · intro k v hsk hne hnobj
                  by_cases hb : (k0 == k) = true
                  · obtain rfl := hbcase k hb
                    rw [hsrc] at hsk
                    obtain rfl : JValue.str "" = v := by cases hsk; rfl
                    exact absurd rfl hne
                  · have hkne : k ≠ k0 := fun e => hb (by rw [e, beq_self_eq_true])
                    exact c4 k v (by rw [htrans k hkne]; exact hsk) hne hnobj
                · intro k dfields sfields hdk hsk
                  by_cases hb : (k0 == k) = true
                  · obtain rfl := hbcase k hb
                    rw [hsrc] at hsk; cases hsk
                  · rw [lookupField_cons, if_neg hb] at hdk
                    have hkne : k ≠ k0 := fun e => hb (by rw [e, beq_self_eq_true])
                    exact c5 k dfields sfields hdk (by rw [htrans k hkne]; exact hsk)
                · intro k dv sfields hdk hsk
                  by_cases hb : (k0 == k) = true
                  · obtain rfl := hbcase k hb
                    rw [hsrc] at hsk; cases hsk
                  · rw [lookupField_cons, if_neg hb] at hdk
                    have hkne : k ≠ k0 := fun e => hb (by rw [e, beq_self_eq_true])
                    exact c6 k dv sfields hdk (by rw [htrans k hkne]; exact hsk)
              · rw [if_neg hs] at h
                obtain ⟨c1, c2, c3, c4, c5, c6⟩ := ih source out hndrest h
                have hout0 : lookupField out k0 = some (JValue.str s) := by
                  rw [c1 k0 hk0rest, hsrc]
                refine ⟨?_, ?_, ?_, ?_, ?_, ?_⟩
                · intro k hdk
                  rw [lookupField_cons] at hdk
                  by_cases hb : (k0 == k) = true
                  · rw [if_pos hb] at hdk; cases hdk
                  · rw [if_neg hb] at hdk
                    exact c1 k hdk
                · intro k dv hdk hsk
                  rw [lookupField_cons] at hdk
                  by_cases hb : (k0 == k) = true
                  · obtain rfl := hbcase k hb
                    rw [hsrc] at hsk; cases hsk
                  · rw [if_neg hb] at hdk
                    exact c2 k dv hdk hsk
                · intro k dv hdk hsk
                  rw [lookupField_cons] at hdk
                  by_cases hb : (k0 == k) = true
                  · obtain rfl := hbcase k hb
                    rw [hsrc] at hsk
                    obtain heq : JValue.str s = JValue.str "" := by cases hsk; rfl
                    obtain rfl : s = "" := by cases heq; rfl
                    exact absurd (beq_self_eq_true "") hs
                  · rw [if_neg hb] at hdk
                    exact c3 k dv hdk hsk
                · intro k v hsk hne hnobj
                  exact c4 k v hsk hne hnobj
                · intro k dfields sfields hdk hsk
                  by_cases hb : (k0 == k) = true
                  · obtain rfl := hbcase k hb
                    rw [hsrc] at hsk; cases hsk
                  · rw [lookupField_cons, if_neg hb] at hdk
                    exact c5 k dfields sfields hdk hsk
                · intro k dv sfields hdk hsk
                  by_cases hb : (k0 == k) = true
                  · obtain rfl := hbcase k hb
                    rw [hsrc] at hsk; cases hsk
                  · rw [lookupField_cons, if_neg hb] at hdk
                    exact c6 k dv sfields hdk hsk
          | obj sfields0 =>
              rw [fillStruct_cons_obj dv0 rest hsrc] at h
              cases dv0 with
              | obj dfields0 =>
                  cases hm : fillStruct sfields0 dfields0 with
                  | none =>
                      simp only [hm] at h
                      exact Option.noConfusion h
                  | some merged =>
                      simp only [hm] at h
                      obtain ⟨c1, c2, c3, c4, c5, c6⟩ :=
                        ih (setField source k0 (JValue.obj merged)) out hndrest h
                      have htrans : ∀ k, k ≠ k0 →
                          lookupField (setField source k0 (JValue.obj merged)) k
                            = lookupField source k :=
                        fun k hk => lookupField_setField_ne source hk _
                      have hout0 : lookupField out k0 = some (JValue.obj merged) := by
                        rw [c1 k0 hk0rest, lookupField_setField_self]
                      refine ⟨?_, ?_, ?_, ?_, ?_, ?_⟩
                      · intro k hdk
                        rw [lookupField_cons] at hdk
                        by_cases hb : (k0 == k) = true
                        · rw [if_pos hb] at hdk; cases hdk
                        · rw [if_neg hb] at hdk
                          have hkne : k ≠ k0 := fun e => hb (by rw [e, beq_self_eq_true])
                          rw [c1 k hdk, htrans k hkne]
                      · intro k dv hdk hsk
                        rw [lookupField_cons] at hdk
                        by_cases hb : (k0 == k) = true
                        · obtain rfl := hbcase k hb
                          rw [hsrc] at hsk; cases hsk
                        · rw [if_neg hb] at hdk
                          have hkne : k ≠ k0 := fun e => hb (by rw [e, beq_self_eq_true])
                          exact c2 k dv hdk (by rw [htrans k hkne]; exact hsk)
                      · intro k dv hdk hsk
                        rw [lookupField_cons] at hdk
                        by_cases hb : (k0 == k) = true
                        · obtain rfl := hbcase k hb
                          rw [hsrc] at hsk; cases hsk
                        · rw [if_neg hb] at hdk
                          have hkne : k ≠ k0 := fun e => hb (by rw [e, beq_self_eq_true])
                          exact c3 k dv hdk (by rw [htrans k hkne]; exact hsk)
                      · intro k v hsk hne hnobj
                        by_cases hb : (k0 == k) = true
                        · obtain rfl := hbcase k hb
                          rw [hsrc] at hsk
                          obtain rfl : JValue.obj sfields0 = v := by cases hsk; rfl
                          exact absurd rfl (hnobj sfields0)
                        · have hkne : k ≠ k0 := fun e => hb (by rw [e, beq_self_eq_true])
                          exact c4 k v (by rw [htrans k hkne]; exact hsk) hne hnobj
                      · intro k dfields sfields hdk hsk
                        rw [lookupField_cons] at hdk
                        by_cases hb : (k0 == k) = true
                        · obtain rfl := hbcase k hb
                          rw [if_pos hb] at hdk
                          obtain rfl : dfields0 = dfields := by cases hdk; rfl
                          rw [hsrc] at hsk
                          obtain rfl : sfields0 = sfields := by cases hsk; rfl
                          exact ⟨merged, hm, hout0⟩
                        · rw [if_neg hb] at hdk
                          have hkne : k ≠ k0 := fun e => hb (by rw [e, beq_self_eq_true])
                          exact c5 k dfields sfields hdk (by rw [htrans k hkne]; exact hsk)
                      · intro k dv sfields hdk hsk
                        rw [lookupField_cons] at hdk
                        by_cases hb : (k0 == k) = true
                        · obtain rfl := hbcase k hb
                          rw [if_pos hb] at hdk
                          obtain rfl : JValue.obj dfields0 = dv := by cases hdk; rfl
                          exact ⟨dfields0, rfl⟩
                        · rw [if_neg hb] at hdk
                          have hkne : k ≠ k0 := fun e => hb (by rw [e, beq_self_eq_true])
                          exact c6 k dv sfields hdk (by rw [htrans k hkne]; exact hsk)
              | str s' => simp at h
              | num n => simp at h
              | jbool b => simp at h
              | null => simp at h
              | arr a => simp at h
          | num n =>
              rw [fillStruct_cons_other dv0 rest hsrc
                (fun s he => JValue.noConfusion he)
                (fun f he => JValue.noConfusion he)] at h
              exact fillStruct_spec_scalar_step k0 dv0 rest source out hk0rest hsrc
                (fun s he => JValue.noConfusion he) (fun f he => JValue.noConfusion he)
                (ih source out hndrest h)
          | jbool b =>
              rw [fillStruct_cons_other dv0 rest hsrc
                (fun s he => JValue.noConfusion he)
                (fun f he => JValue.noConfusion he)] at h
              exact fillStruct_spec_scalar_step k0 dv0 rest source out hk0rest hsrc
                (fun s he => JValue.noConfusion he) (fun f he => JValue.noConfusion he)
                (ih source out hndrest h)
          | null =>
              rw [fillStruct_cons_other dv0 rest hsrc
                (fun s he => JValue.noConfusion he)
                (fun f he => JValue.noConfusion he)] at h
              exact fillStruct_spec_scalar_step k0 dv0 rest source out hk0rest hsrc
                (fun s he => JValue.noConfusion he) (fun f he => JValue.noConfusion he)
                (ih source out hndrest h)
          | arr a =>
              rw [fillStruct_cons_other dv0 rest hsrc
                (fun s he => JValue.noConfusion he)
                (fun f he => JValue.noConfusion he)] at h
              exact fillStruct_spec_scalar_step k0 dv0 rest source out hk0rest hsrc
                (fun s he => JValue.noConfusion he) (fun f he => JValue.noConfusion he)
                (ih source out hndrest h)

/-- **C8.** For every document and default structure with distinct default
keys (as Python dicts guarantee), when `fill_struct_with_defaults`
completes — it can only fail by raising `AttributeError` on a
dict-vs-non-dict mismatch — the result takes the default's value for every
key missing from the document and for every key whose value is the empty
string, merges nested dictionaries recursively, and never changes a key
whose present value is non-empty (any present value other than an empty
string or a recursively merged dictionary is returned unchanged, and keys
outside the default structure are untouched). -/
theorem fill_struct_with_defaults_correct
    (default source out : List (String × JValue))
    (hnd : (default.map Prod.fst).Nodup)
    (h : fillStruct source default = some out) :
    FillSpec default source out :=
  fillStruct_spec default source out hnd h

theorem fill_struct_with_defaults_correct_witness :
    fillStruct [("a", JValue.str ""), ("b", JValue.str "x")]
        [("a", JValue.str "A"), ("c", JValue.num 7)] =
      some [("a", JValue.str "A"), ("b", JValue.str "x"), ("c", JValue.num 7)]
    ∧ FillSpec [("a", JValue.str "A"), ("c", JValue.num 7)]
        [("a", JValue.str ""), ("b", JValue.str "x")]
        [("a", JValue.str "A"), ("b", JValue.str "x"), ("c", JValue.num 7)] := by
  have hfill : fillStruct [("a", JValue.str ""), ("b", JValue.str "x")]
      [("a", JValue.str "A"), ("c", JValue.num 7)] =
    some [("a", JValue.str "A"), ("b", JValue.str "x"), ("c", JValue.num 7)] := by
    simp [fillStruct, lookupField, setField]
  exact ⟨hfill, fill_struct_with_defaults_correct _ _ _ (by decide) hfill⟩

/-- The compiled-in `DEFAULT_CONFIG` structure (client.py lines 69–89). -/
def DEFAULT_CONFIG : List (String × JValue) :=
  [("epoch", .num 0),
   ("server", .obj [("host", .str "10.205.8.217"), ("httpd_port", .num 36888),
      ("sshd_port", .num 22)]),
   ("updates", .arr [.obj [("epoch", .num 0),
      ("script", .str "updates/00-no_op.sh")]]),
   ("archive_name_format", .str "{now}"),
   ("backup_times", .arr [.str "@before:shutdown.target"]),
   ("backup_time_randomized_delay", .str "2min"),
   ("backup_paths", .arr [.str "~/Desktop"]),
   ("backup_user", .str "pi")]

/-- A key path exists in a document: each interior key holds a dict and the
final key is present with any value. -/
def hasPathB : List (String × JValue) → List String → Bool
  | _, [] => true
  | fields, k :: rest =>
      match lookupField fields k with
      | some (JValue.obj sub) => hasPathB sub rest
      | some _ => rest.isEmpty
      | none => false

/-- Shape-compatibility of a document with a default structure: wherever
the default holds a nested dict, the document's value at that key (when
present) is a dict — compatible in turn — or an empty string. -/
def compatibleB : List (String × JValue) → List (String × JValue) → Bool
  | _, [] => true
  | source, (k, dv) :: rest =>
      (match dv with
        | JValue.obj dfields =>
            (match lookupField source k with
              | none => true
              | some (JValue.str s) => s == ""
              | some (JValue.obj sfields) => compatibleB sfields dfields
              | some _ => false)
        | _ => true)
      && compatibleB source rest
termination_by _ d => sizeOf d
decreasing_by all_goals simp_wf <;> omega

/-- Keys are duplicate-free at every nesting level of a default structure. -/
def keysNodupDeep : List (String × JValue) → Bool
  | [] => true
  | (k, v) :: rest =>
      !(rest.any (fun p => p.1 == k))
      && (match v with
          | JValue.obj sub => keysNodupDeep sub
          | _ => true)
      && keysNodupDeep rest
termination_by d => sizeOf d
decreasing_by all_goals simp_wf <;> omega

theorem compatibleB_nil (source : List (String × JValue)) :
    compatibleB source [] = true := by
  rw [compatibleB.eq_def]

theorem compatibleB_cons (source : List (String × JValue)) (k : String)
    (dv : JValue) (rest : List (String × JValue)) :
    compatibleB source ((k, dv) :: rest) =
      ((match dv with
        | JValue.obj dfields =>
            (match lookupField source k with
              | none => true
              | some (JValue.str s) => s == ""
              | some (JValue.obj sfields) => compatibleB sfields dfields
              | some _ => false)
        | _ => true)
      && compatibleB source rest) := by
  rw [compatibleB.eq_def]

theorem keysNodupDeep_cons (k : String) (v : JValue)
    (rest : List (String × JValue)) :
    keysNodupDeep ((k, v) :: rest) =
      (!(rest.any (fun p => p.1 == k))
      && (match v with
          | JValue.obj sub => keysNodupDeep sub
          | _ => true)
      && keysNodupDeep rest) := by
  rw [keysNodupDeep.eq_def]

theorem keysNodup_of_deep {d : List (String × JValue)}
    (h : keysNodupDeep d = true) : (d.map Prod.fst).Nodup := by
  induction d with
  | nil => simp
  | cons hd tl ih =>
      obtain ⟨k, v⟩ := hd
      rw [keysNodupDeep_cons] at h
      simp only [Bool.and_eq_true, Bool.not_eq_true'] at h
      obtain ⟨⟨hany, -⟩, hrest⟩ := h
      rw [List.map_cons, List.nodup_cons]
      refine ⟨?_, ih hrest⟩
      intro hmem
      obtain ⟨⟨a, b⟩, hab, heq⟩ := List.mem_map.mp hmem
      have : tl.any (fun p => p.1 == k) = true :=
        List.any_eq_true.mpr ⟨(a, b), hab, by simpa using heq⟩
      rw [this] at hany
      cases hany

theorem keysNodupDeep_lookup {d : List (String × JValue)} {k : String}
    {sub : List (String × JValue)}
    (h : keysNodupDeep d = true)
    (hl : lookupField d k = some (JValue.obj sub)) :
    keysNodupDeep sub = true := by
  induction d with
  | nil => simp [lookupField] at hl
  | cons hd tl ih =>
      obtain ⟨k1, v1⟩ := hd
      rw [keysNodupDeep_cons] at h
      simp only [Bool.and_eq_true] at h
      obtain ⟨⟨-, hv⟩, hrest⟩ := h
      rw [lookupField_cons] at hl
      by_cases hb : (k1 == k) = true
      · rw [if_pos hb] at hl
        obtain rfl : v1 = JValue.obj sub := by cases hl; rfl
        exact hv
      · rw [if_neg hb] at hl
        exact ih hrest hl

theorem compatibleB_lookup {s d : List (String × JValue)} {k : String}
    {dfields : List (String × JValue)}
    (h : compatibleB s d = true)
    (hl : lookupField d k = some (JValue.obj dfields)) :
    lookupField s k = none
    ∨ lookupField s k = some (JValue.str "")
    ∨ (∃ sfields, lookupField s k = some (JValue.obj sfields)
        ∧ compatibleB sfields dfields = true) := by
  induction d with
  | nil => simp [lookupField] at hl
  | cons hd tl ih =>
      obtain ⟨k1, dv1⟩ := hd
      rw [compatibleB_cons] at h
      simp only [Bool.and_eq_true] at h
      obtain ⟨hcond, hrest⟩ := h
      rw [lookupField_cons] at hl
      by_cases hb : (k1 == k) = true
      · obtain rfl : k = k1 := (eq_of_beq hb).symm
        rw [if_pos hb] at hl
        obtain rfl : dv1 = JValue.obj dfields := by cases hl; rfl
        cases hsk : lookupField s k with
        | none => exact Or.inl rfl
        | some v =>
            rw [hsk] at hcond
            cases v with
            | str str1 =>
                refine Or.inr (Or.inl ?_)
                obtain rfl : str1 = "" := eq_of_beq hcond
                rfl
            | obj sfields => exact Or.inr (Or.inr ⟨sfields, rfl, hcond⟩)
            | num n => cases hcond
            | jbool b => cases hcond
            | null => cases hcond
            | arr a => cases hcond
      · rw [if_neg hb] at hl
        exact ih hrest hl

theorem lookupField_sizeOf {d : List (String × JValue)} {k : String}
    {v : JValue} (h : lookupField d k = some v) : sizeOf v < sizeOf d := by
  induction d with
  | nil => simp [lookupField] at h
  | cons hd tl ih =>
      obtain ⟨k1, v1⟩ := hd
      rw [lookupField_cons] at h
      by_cases hb : (k1 == k) = true
      · rw [if_pos hb] at h
        obtain rfl : v1 = v := by cases h; rfl
        simp
        omega
      · rw [if_neg hb] at h
        have := ih h
        simp
        omega

theorem hasPathB_cons (fields : List (String × JValue)) (k : String)
    (rest : List String) :
    hasPathB fields (k :: rest) =
      match lookupField fields k with
      | some (JValue.obj sub) => hasPathB sub rest
      | some _ => rest.isEmpty
      | none => false := rfl

theorem fillOut_lookup_isSome {default source out : List (String × JValue)}
    (spec : FillSpec default source out) {k : String} {dv : JValue}
    (hdk : lookupField default k = some dv)
    (hnobj : ∀ f, dv ≠ JValue.obj f) :
    ∃ w, lookupField out k = some w := by
  obtain ⟨c1, c2, c3, c4, c5, c6⟩ := spec
  cases hsk : lookupField source k with
  | none => exact ⟨dv, c2 k dv hdk hsk⟩
  | some v =>
      cases v with
      | str s =>
          by_cases hs : s = ""
          · subst hs
            exact ⟨dv, c3 k dv hdk hsk⟩
          · exact ⟨JValue.str s, c4 k _ hsk
              (fun he => hs (by cases he; rfl))
              (fun f he => JValue.noConfusion he)⟩
      | obj sfields =>
          obtain ⟨dfields, rfl⟩ := c6 k dv sfields hdk hsk
          exact absurd rfl (hnobj dfields)
      | num n =>
          exact ⟨_, c4 k _ hsk (fun he => JValue.noConfusion he)
            (fun f he => JValue.noConfusion he)⟩
      | jbool b =>
          exact ⟨_, c4 k _ hsk (fun he => JValue.noConfusion he)
            (fun f he => JValue.noConfusion he)⟩
      | null =>
          exact ⟨_, c4 k _ hsk (fun he => JValue.noConfusion he)
            (fun f he => JValue.noConfusion he)⟩
      | arr a =>
          exact ⟨_, c4 k _ hsk (fun he => JValue.noConfusion he)
            (fun f he => JValue.noConfusion he)⟩

theorem fillStruct_paths (n : Nat) :
    ∀ (default : List (String × JValue)), sizeOf default ≤ n →
      ∀ (source out : List (String × JValue)) (path : List String),
        keysNodupDeep default = true →
        compatibleB source default = true →
        fillStruct source default = some out →
        hasPathB default path = true →
        hasPathB out path = true := by
  induction n with
  | zero =>
      intro default hsize
      exfalso
      cases default with
      | nil => simp at hsize
      | cons h t => simp at hsize
  | succ n ih =>
      intro default hsize source out path hnd hcompat h hpath
      cases path with
      | nil => rfl
      | cons k rest =>
          rw [hasPathB_cons] at hpath
          cases hdk : lookupField default k with
          | none => rw [hdk] at hpath; cases hpath
          | some dv =>
              rw [hdk] at hpath
              have spec := fillStruct_spec default source out (keysNodup_of_deep hnd) h
              cases dv with
              | obj dfields =>
                  obtain ⟨c1, c2, c3, c4, c5, c6⟩ := spec
                  rcases compatibleB_lookup hcompat hdk with
                    hsk | hsk | ⟨sfields, hsk, hcsub⟩
                  · have hout := c2 k _ hdk hsk
                    rw [hasPathB_cons, hout]
                    exact hpath
                  · have hout := c3 k _ hdk hsk
                    rw [hasPathB_cons, hout]
                    exact hpath
                  · obtain ⟨merged, hm, hout⟩ := c5 k dfields sfields hdk hsk
                    rw [hasPathB_cons, hout]
                    have hsub : sizeOf dfields ≤ n := by
                      have h1 := lookupField_sizeOf hdk
                      simp at h1
                      omega
                    exact ih dfields hsub sfields merged rest
                      (keysNodupDeep_lookup hnd hdk) hcsub hm hpath
              | str s =>
                  have hrest : rest = [] := by simpa using hpath
                  subst hrest
                  obtain ⟨w, hw⟩ := fillOut_lookup_isSome spec hdk
                    (fun f he => JValue.noConfusion he)
                  rw [hasPathB_cons, hw]
                  cases w <;> rfl
              | num m =>
                  have hrest : rest = [] := by simpa using hpath
                  subst hrest
                  obtain ⟨w, hw⟩ := fillOut_lookup_isSome spec hdk
                    (fun f he => JValue.noConfusion he)
                  rw [hasPathB_cons, hw]
                  cases w <;> rfl
              | jbool b =>
                  have hrest : rest = [] := by simpa using hpath
                  subst hrest
                  obtain ⟨w, hw⟩ := fillOut_lookup_isSome spec hdk
                    (fun f he => JValue.noConfusion he)
                  rw [hasPathB_cons, hw]
                  cases w <;> rfl
              | null =>
                  have hrest : rest = [] := by simpa using hpath
                  subst hrest
                  obtain ⟨w, hw⟩ := fillOut_lookup_isSome spec hdk
                    (fun f he => JValue.noConfusion he)
                  rw [hasPathB_cons, hw]
                  cases w <;> rfl
              | arr a =>
                  have hrest : rest = [] := by simpa using hpath
                  subst hrest
                  obtain ⟨w, hw⟩ := fillOut_lookup_isSome spec hdk
                    (fun f he => JValue.noConfusion he)
                  rw [hasPathB_cons, hw]
                  cases w <;> rfl

/-- A document whose `server` field is a non-empty string rather than a
dict: the merge leaves it untouched, so the nested default keys under
`server` never appear. -/
def docServerString : List (String × JValue) := [("server", JValue.str "x")]

/-- The result of merging `docServerString` with `DEFAULT_CONFIG`. -/
def mergedServerString : List (String × JValue) :=
  [("server", .str "x"), ("epoch", .num 0),
   ("updates", .arr [.obj [("epoch", .num 0),
      ("script", .str "updates/00-no_op.sh")]]),
   ("archive_name_format", .str "{now}"),
   ("backup_times", .arr [.str "@before:shutdown.target"]),
   ("backup_time_randomized_delay", .str "2min"),
   ("backup_paths", .arr [.str "~/Desktop"]),
   ("backup_user", .str "pi")]

/-- **C9 (counterexample).** The claim asserts that after the default-merge
every key path of the compiled-in default structure is present in the
result.  For the document `{"server": "x"}` the merge completes without
touching the present non-empty string `server`, so the default path
`server.host` is absent from the result. -/
theorem default_merge_paths_counterexample :
    hasPathB DEFAULT_CONFIG ["server", "host"] = true
    ∧ fillStruct docServerString DEFAULT_CONFIG = some mergedServerString
    ∧ hasPathB mergedServerString ["server", "host"] = false := by
  refine ⟨by decide, ?_, by decide⟩
  simp [fillStruct, DEFAULT_CONFIG, docServerString, mergedServerString,
    lookupField, setField]

/-- **C9 (amended).** After merging a document against the compiled-in
default structure, every key path of the default structure is present in
the result, provided the merge completes and the document is
shape-compatible with the defaults: wherever the default holds a nested
dict, the document's value at that key (when present) is itself a dict or
an empty string — a present non-empty scalar there (for example
`{"server": "x"}`) blocks the nested default keys. -/
theorem default_merge_paths_present (doc out : List (String × JValue))
    (hcompat : compatibleB doc DEFAULT_CONFIG = true)
    (h : fillStruct doc DEFAULT_CONFIG = some out) :
    ∀ p, hasPathB DEFAULT_CONFIG p = true → hasPathB out p = true := by
  have hndDeep : keysNodupDeep DEFAULT_CONFIG = true := by
    simp [keysNodupDeep, DEFAULT_CONFIG, lookupField]
  intro p hp
  exact fillStruct_paths (sizeOf DEFAULT_CONFIG) DEFAULT_CONFIG (le_refl _)
    doc out p hndDeep hcompat h hp

/-- A document whose `server` field is the empty string: the merge
replaces it with the whole default `server` dict. -/
def docEmptyServer : List (String × JValue) := [("server", JValue.str "")]

/-- The result of merging `docEmptyServer` with `DEFAULT_CONFIG`. -/
def mergedEmptyServer : List (String × JValue) :=
  [("server", .obj [("host", .str "10.205.8.217"), ("httpd_port", .num 36888),
      ("sshd_port", .num 22)]),
   ("epoch", .num 0),
   ("updates", .arr [.obj [("epoch", .num 0),
      ("script", .str "updates/00-no_op.sh")]]),
   ("archive_name_format", .str "{now}"),
   ("backup_times", .arr [.str "@before:shutdown.target"]),
   ("backup_time_randomized_delay", .str "2min"),
   ("backup_paths", .arr [.str "~/Desktop"]),
   ("backup_user", .str "pi")]

theorem default_merge_paths_present_witness :
    compatibleB docEmptyServer DEFAULT_CONFIG = true
    ∧ fillStruct docEmptyServer DEFAULT_CONFIG = some mergedEmptyServer
    ∧ ∀ p, hasPathB DEFAULT_CONFIG p = true →
        hasPathB mergedEmptyServer p = true := by
  have hc : compatibleB docEmptyServer DEFAULT_CONFIG = true := by
    simp [compatibleB_cons, compatibleB_nil, DEFAULT_CONFIG, docEmptyServer,
      lookupField]
  have hf : fillStruct docEmptyServer DEFAULT_CONFIG = some mergedEmptyServer := by
    simp [fillStruct, DEFAULT_CONFIG, docEmptyServer, mergedEmptyServer,
      lookupField, setField]
  exact ⟨hc, hf,
    default_merge_paths_present docEmptyServer mergedEmptyServer hc hf⟩

end ConfigStore
